import Mathlib

/-!
Verification development for the `genpass` secure string generator
(`main.go`, v0.0.2).  The Go source is shallowly embedded: machine
`uint64` values are `Nat` reduced modulo `2^64` at every draw, fallible
operations return `Except`/`Option`, and the entropy source is modelled
as a stream `Nat → Option Nat` (position = number of `GenerateUint64`
calls; `none` = OS read failure) together with, for the health/counter
claims, an explicit state machine.  Context cancellation is modelled by
an optional draw-count threshold: the Go `ctx.Done()` checks observe a
monotone event, rendered here as "cancelled once the draw counter
reaches `k`".  Go runtime panics (index out of range, modulo by zero,
nil dereference) are rendered as the distinguished error `panicked`.
-/

namespace Genpass

/-- Validation failures collected by `GeneratorConfig.Validate`
(`main.go` lines 147-175); one constructor per `errs` entry. -/
inductive ValidationError where
  | invalidLength
  | invalidCount
  | emptyCharset
  | charsetTooLarge
deriving DecidableEq, Repr

/-- Errors surfaced by the generation pipeline. `invalidConfig` wraps the
joined validation errors (`Generate`, line 345); `nonPositiveLength` is the
`length must be positive` guard of `generateSecureString` (line 477);
`entropyFailure` is a propagated entropy-source error; `excessiveRejection`
is the `too many retries` error (line 519); `cancelled` is `ctx.Err()`;
`panicked` marks a Go runtime panic. -/
inductive GenError where
  | invalidConfig (errs : List ValidationError)
  | nonPositiveLength
  | entropyFailure
  | excessiveRejection
  | cancelled
  | panicked
deriving DecidableEq, Repr

deriving instance DecidableEq for Except

/-- `CharacterSet` (`main.go` lines 82-86): deduplicated byte alphabet plus
the power-of-two bitmask (`0` when the length is not a power of two ≥ 2). -/
structure CharacterSet where
  chars : List Nat
  mask : Nat
deriving DecidableEq, Repr

/-- Order-preserving deduplication, as the `seen` map loop of
`NewCharacterSet` (lines 91-99). -/
def dedupe (s : List Nat) : List Nat :=
  s.foldl (fun acc c => if acc.contains c then acc else acc ++ [c]) []

/-- `NewCharacterSet` (lines 89-111): dedupe, then set
`mask = len-1` when `len > 0 && len&(len-1) == 0`. -/
def NewCharacterSet (s : List Nat) : CharacterSet :=
  let unique := dedupe s
  let n := unique.length
  { chars := unique
    mask := if 0 < n ∧ n &&& (n - 1) = 0 then n - 1 else 0 }

/-- `CharacterSet.Len` (lines 124-126). -/
def CharacterSet.Len (cs : CharacterSet) : Nat := cs.chars.length

/-- `CharacterSet.At` (lines 114-121).  `none` models the Go runtime
panic: index out of range, or modulo by zero when the set is empty. -/
def CharacterSet.At (cs : CharacterSet) (i : Nat) : Option Nat :=
  if cs.mask ≠ 0 then cs.chars[i &&& cs.mask]?
  else if cs.chars.length = 0 then none
  else cs.chars[i % cs.chars.length]?

/-- Largest `uint64` value, `^uint64(0)`. -/
def U64MAX : Nat := 2 ^ 64 - 1

/-- `maxValid := ^uint64(0) - (^uint64(0) % uint64(charset.Len()))`
(line 513).  Callers guard `L = 0` (Go panics on modulo by zero). -/
def maxValid (L : Nat) : Nat := U64MAX - U64MAX % L

/-- Entropy stream: the value produced by the `n`-th `GenerateUint64`
call, or `none` when that OS read fails. -/
abbrev ES := Nat → Option Nat

/-- Whether `ctx.Done()` is observed at draw position `pos`: the context
becomes (and stays) done once the draw counter reaches the threshold. -/
def ctxDone (cancelAt : Option Nat) (pos : Nat) : Bool :=
  match cancelAt with
  | none => false
  | some k => decide (k ≤ pos)

/-- Rejection loop of `generateSecureString` (lines 512-527) for one
character: `for idx >= maxValid { if retries >= 10 {fail}; redraw }`.
The Go `retries` counter (0 up to the cap `maxRetries = 10`) is carried
here as the structurally decreasing remaining-redraw budget
`k = 10 - retries`, so `retries >= maxRetries` is exactly `k = 0`.
Returns the accepted raw value and the stream position after the loop. -/
def rejLoopGo (es : ES) (L : Nat) (idx pos : Nat) : Nat → Except GenError Nat × Nat
  | 0 =>
    if idx ≥ maxValid L then (.error .excessiveRejection, pos) else (.ok idx, pos)
  | k + 1 =>
    if idx ≥ maxValid L then
      match es pos with
      | none => (.error .entropyFailure, pos + 1)
      | some v => rejLoopGo es L (v % 2 ^ 64) (pos + 1) k
    else (.ok idx, pos)

/-- The per-character rejection loop entered with `retries = 0`. -/
def rejLoop (es : ES) (L : Nat) (idx pos : Nat) : Except GenError Nat × Nat :=
  rejLoopGo es L idx pos 10

/-- Character selection for one pre-drawn value `idx` (lines 503-530).
The source dispatches once on `charset.mask != 0` outside its two loops;
since the condition is loop-invariant this is embedded per element:
the mask branch is `result[i] = charset.At(idx)` with no redraw, the
other branch is the rejection loop followed by `charset.At(idx)`
(which reduces the accepted value modulo the length).  A `charset` of
length 0 in the rejection branch panics in Go (`% 0`). -/
def selectChar (es : ES) (cs : CharacterSet) (idx pos : Nat) :
    Except GenError Nat × Nat :=
  if cs.mask ≠ 0 then
    match cs.At idx with
    | some c => (.ok c, pos)
    | none => (.error .panicked, pos)
  else if cs.chars.length = 0 then (.error .panicked, pos)
  else
    match rejLoop es cs.chars.length idx pos with
    | (.ok v, posN) =>
      match cs.At v with
      | some c => (.ok c, posN)
      | none => (.error .panicked, posN)
    | (.error e, posN) => (.error e, posN)

/-- Outcome of `generateSecureString`: the result, the contents of the
`indices` scratch buffer at the moment the function exits (after any
deferred zeroing that was registered), and the final draw position. -/
structure SecOut where
  res : Except GenError (List Nat)
  buf : List Nat
  pos : Nat
deriving DecidableEq, Repr

/-- Index-drawing loop of `generateSecureString` (lines 487-500):
`indices := make([]uint64, length)` (zero-initialised), then one
`ctx.Done()` check and one `GenerateUint64` per slot.  Returns the loop
outcome, the buffer contents when the loop stops (drawn values so far,
zeros in the untouched slots), and the new draw position. -/
def drawLoop (es : ES) (cancelAt : Option Nat) :
    Nat → Nat → Except GenError Unit × List Nat × Nat
  | 0, pos => (.ok (), [], pos)
  | n + 1, pos =>
    if ctxDone cancelAt pos then (.error .cancelled, List.replicate (n + 1) 0, pos)
    else
      match es pos with
      | none => (.error .entropyFailure, List.replicate (n + 1) 0, pos + 1)
      | some v =>
        let r := drawLoop es cancelAt n (pos + 1)
        (r.1, v % 2 ^ 64 :: r.2.1, r.2.2)

/-- Character-selection loop of `generateSecureString` (lines 503-530),
one `selectChar` per drawn index, aborting on the first error. -/
def selLoop (es : ES) (cs : CharacterSet) :
    List Nat → Nat → Except GenError (List Nat) × Nat
  | [], pos => (.ok [], pos)
  | idx :: rest, pos =>
    match selectChar es cs idx pos with
    | (.ok c, pos1) =>
      match selLoop es cs rest pos1 with
      | (.ok out, pos2) => (.ok (c :: out), pos2)
      | (.error e, pos2) => (.error e, pos2)
    | (.error e, pos1) => (.error e, pos1)

/-- `generateSecureString` (lines 475-540).  The `defer` that zeroes the
`indices` buffer (lines 533-537) is registered only after both selection
loops, so it runs only on the success return: on the cancellation,
entropy-failure and rejection-cap exits the buffer still holds the raw
drawn values. -/
def generateSecureString (es : ES) (cancelAt : Option Nat) (len : Int)
    (cs : CharacterSet) (pos : Nat) : SecOut :=
  if len ≤ 0 then ⟨.error .nonPositiveLength, [], pos⟩
  else
    match drawLoop es cancelAt len.toNat pos with
    | (.error e, buf, posN) => ⟨.error e, buf, posN⟩
    | (.ok _, indices, posN) =>
      match selLoop es cs indices posN with
      | (.ok out, posF) => ⟨.ok out, List.replicate len.toNat 0, posF⟩
      | (.error e, posF) => ⟨.error e, indices, posF⟩

/-- `GeneratorConfig` (lines 134-144).  `charset = none` models a nil
`*CharacterSet`; `batchSize`, `memoryPool` and `constantTime` are set by
the CLI but never read by the generation logic. -/
structure GeneratorConfig where
  type : Nat
  length : Int
  count : Int
  charset : Option CharacterSet
  parallel : Bool
  workers : Int
  batchSize : Int
  memoryPool : Bool
  constantTime : Bool
deriving DecidableEq, Repr

/-- `GeneratorType` constants (lines 27-29): `iota` gives
`GeneratorHyphenated = 1`, `GeneratorCompact = 2`. -/
def GeneratorHyphenated : Nat := 1

/-- `GeneratorCompact = 2` (see `GeneratorHyphenated`). -/
def GeneratorCompact : Nat := 2

/-- `GeneratorConfig.Validate` (lines 147-175), with
`maxStringLength = 1024`, `maxBatchSize = 1000`.  Returns the collected
error list (`errors.Join` of the `errs` slice; empty list = `nil`) and
the (possibly `Workers`-mutated) configuration; `numCPU` stands for
`runtime.NumCPU()`. -/
def Validate (numCPU : Int) (gc : GeneratorConfig) :
    List ValidationError × GeneratorConfig :=
  let e1 : List ValidationError :=
    if gc.length ≤ 0 ∨ gc.length > 1024 then [.invalidLength] else []
  let e2 : List ValidationError :=
    if gc.count ≤ 0 ∨ gc.count > 1000 then [.invalidCount] else []
  let e3 : List ValidationError :=
    match gc.charset with
    | none => [.emptyCharset]
    | some cs =>
      if cs.Len = 0 then [.emptyCharset]
      else if cs.Len > 256 then [.charsetTooLarge]
      else []
  let workers :=
    if gc.workers ≤ 0 then numCPU
    else if gc.workers > 32 then 32
    else gc.workers
  (e1 ++ e2 ++ e3, { gc with workers := workers })

/-- `generateCompactString` (lines 469-471): one secure string of
`config.Length` characters.  A nil charset would panic in Go. -/
def generateCompactString (es : ES) (cancelAt : Option Nat)
    (gc : GeneratorConfig) (pos : Nat) : SecOut :=
  match gc.charset with
  | none => ⟨.error .panicked, [], pos⟩
  | some cs => generateSecureString es cancelAt gc.length cs pos

/-- `generateHyphenatedString` (lines 442-466): three 6-character groups
joined with `-` (byte 45) in fixed group order.  The source launches the
three groups concurrently in one errgroup; they are embedded in group
order (one interleaving of the shared entropy stream), which fixes an
order for the draws but not the joined layout, which the source already
fixes to part 1 - part 2 - part 3. -/
def generateHyphenatedString (es : ES) (cancelAt : Option Nat)
    (gc : GeneratorConfig) (pos : Nat) : Except GenError (List Nat) × Nat :=
  match gc.charset with
  | none => (.error .panicked, pos)
  | some cs =>
    match generateSecureString es cancelAt 6 cs pos with
    | ⟨.error e, _, p1⟩ => (.error e, p1)
    | ⟨.ok g0, _, p1⟩ =>
      match generateSecureString es cancelAt 6 cs p1 with
      | ⟨.error e, _, p2⟩ => (.error e, p2)
      | ⟨.ok g1, _, p2⟩ =>
        match generateSecureString es cancelAt 6 cs p2 with
        | ⟨.error e, _, p3⟩ => (.error e, p3)
        | ⟨.ok g2, _, p3⟩ => (.ok (g0 ++ 45 :: (g1 ++ 45 :: g2)), p3)

/-- `CryptoGenerator.Generate` (lines 337-375): validate first, then the
worker-slot acquisition (whose `select` observes `ctx.Done()`), then
dispatch on `config.Type` with the default case falling back to the
hyphenated generator.  Timing statistics are not modelled. -/
def Generate (es : ES) (cancelAt : Option Nat) (numCPU : Int)
    (gc : GeneratorConfig) (pos : Nat) : Except GenError (List Nat) × Nat :=
  let v := Validate numCPU gc
  if v.1 ≠ [] then (.error (.invalidConfig v.1), pos)
  else if ctxDone cancelAt pos then (.error .cancelled, pos)
  else if v.2.type = GeneratorCompact then
    let o := generateCompactString es cancelAt v.2 pos
    (o.res, o.pos)
  else generateHyphenatedString es cancelAt v.2 pos

/-- Sequential body of `GenerateBatch` (lines 385-395): `count`
iterations of `Generate`; on the first error the partially filled
`results` slice is discarded and `nil` is returned (modelled as `[]`).
The parallel errgroup branch (lines 398-417) writes `results[i]` from
independent generations and likewise returns `nil` with the first error;
it is embedded by this same in-order interleaving. -/
def batchLoop (es : ES) (cancelAt : Option Nat) (numCPU : Int)
    (gc : GeneratorConfig) : Nat → Nat → List (List Nat) × Option GenError × Nat
  | 0, pos => ([], none, pos)
  | rem + 1, pos =>
    match Generate es cancelAt numCPU gc pos with
    | (.error e, posN) => ([], some e, posN)
    | (.ok out, posN) =>
      match batchLoop es cancelAt numCPU gc rem posN with
      | (rest, none, posF) => (out :: rest, none, posF)
      | (_, some e, posF) => ([], some e, posF)

/-- `CryptoGenerator.GenerateBatch` (lines 378-418): validate, then run
`config.Count` generations (each `Generate` call re-validates the
already-mutated configuration, as in the source). -/
def GenerateBatch (es : ES) (cancelAt : Option Nat) (numCPU : Int)
    (gc : GeneratorConfig) (pos : Nat) : List (List Nat) × Option GenError × Nat :=
  let v := Validate numCPU gc
  if v.1 ≠ [] then ([], some (.invalidConfig v.1), pos)
  else batchLoop es cancelAt numCPU v.2 v.2.count.toNat pos

/-- Draw position reached after `i` generations starting at `pos`
(regardless of their success), used to name "the i-th generation". -/
def batchPos (es : ES) (cancelAt : Option Nat) (numCPU : Int)
    (gc : GeneratorConfig) (pos : Nat) : Nat → Nat
  | 0 => pos
  | i + 1 => (Generate es cancelAt numCPU gc (batchPos es cancelAt numCPU gc pos i)).2

/-- `EntropySource` state (lines 253-260): health flag, generated-bytes
and error counters, plus a counter of OS `rand.Read` attempts (not a Go
field; it makes "the OS call is not attempted" observable). -/
structure ESState where
  health : Bool
  generated : Nat
  errCount : Nat
  osCalls : Nat
deriving DecidableEq, Repr

/-- `NewEntropySource` (lines 263-267): health starts `true`. -/
def NewEntropySource : ESState := ⟨true, 0, 0, 0⟩

/-- Success/failure of one `GenerateBytes` call (byte payload abstracted;
the value-level behaviour is carried by the `ES` stream model). -/
inductive ESResult where
  | ok
  | failed
deriving DecidableEq, Repr

/-- `EntropySource.GenerateBytes` (lines 270-285): unhealthy sources fail
immediately without touching the OS; an OS failure (`osOk` false at the
current attempt number) increments the error counter and stores
`health = false`; success adds `n` to the generated counter. -/
def GenerateBytes (osOk : Nat → Bool) (n : Nat) (s : ESState) : ESResult × ESState :=
  if s.health = false then (.failed, s)
  else if osOk s.osCalls then
    (.ok, { s with generated := s.generated + n, osCalls := s.osCalls + 1 })
  else
    (.failed, { s with health := false, errCount := s.errCount + 1,
                       osCalls := s.osCalls + 1 })

/-- `EntropySource.GenerateUint64` (lines 288-296): `GenerateBytes(8)`
plus a little-endian decode of the payload (abstracted). -/
def GenerateUint64 (osOk : Nat → Bool) (s : ESState) : ESResult × ESState :=
  GenerateBytes osOk 8 s

/-- Run a sequence of `GenerateBytes` calls (one entry per requested
size) against the entropy source. -/
def esRun (osOk : Nat → Bool) : List Nat → ESState → ESState
  | [], s => s
  | n :: rest, s => esRun osOk rest (GenerateBytes osOk n s).2

/-! ## Helper lemmas -/

theorem dedupe_step_ne_nil (l : List Nat) (acc : List Nat) (hacc : acc ≠ []) :
    l.foldl (fun acc c => if acc.contains c then acc else acc ++ [c]) acc ≠ [] := by
  induction l generalizing acc with
  | nil => exact hacc
  | cons c rest ih =>
    simp only [List.foldl_cons]
    apply ih
    split
    · exact hacc
    · simp

theorem dedupe_ne_nil (s : List Nat) (hs : s ≠ []) : dedupe s ≠ [] := by
  match s with
  | [] => exact absurd rfl hs
  | a :: t =>
    unfold dedupe
    simp only [List.foldl_cons]
    have h1 : (if ([] : List Nat).contains a then ([] : List Nat) else [] ++ [a]) = [a] := by
      simp
    rw [h1]
    exact dedupe_step_ne_nil t [a] (by simp)

theorem mask_of_ne_zero (s : List Nat) (h : (NewCharacterSet s).mask ≠ 0) :
    0 < (NewCharacterSet s).chars.length ∧
    (NewCharacterSet s).mask = (NewCharacterSet s).chars.length - 1 ∧
    (NewCharacterSet s).chars.length &&& ((NewCharacterSet s).chars.length - 1) = 0 := by
  simp only [NewCharacterSet] at h ⊢
  by_cases hc : 0 < (dedupe s).length ∧ (dedupe s).length &&& ((dedupe s).length - 1) = 0
  · exact ⟨hc.1, by rw [if_pos hc], hc.2⟩
  · rw [if_neg hc] at h
    exact absurd rfl h

/-! ## C9 — totality of `CharacterSet.At` -/

/-- C9 (counterexample): `NewCharacterSet` applied to the empty string
yields the empty set, and `At 0` on it is undefined (the Go code panics
with a modulo-by-zero), so `At` is not defined for every set produced by
`NewCharacterSet`. -/
theorem C9_At_empty_counterexample :
    (NewCharacterSet []).chars = [] ∧ (NewCharacterSet []).At 0 = none := by
  constructor <;> rfl

/-- C9 (amended): for every `CharacterSet` produced by `NewCharacterSet`
from a NONEMPTY input and every index value `i`, `At i` is defined and
returns an element of the set (no out-of-bounds read). -/
theorem C9_At_total_of_ne_nil (s : List Nat) (hs : s ≠ []) (i : Nat) :
    ∃ c, (NewCharacterSet s).At i = some c ∧ c ∈ (NewCharacterSet s).chars := by
  have hnil : (NewCharacterSet s).chars ≠ [] := dedupe_ne_nil s hs
  have hpos : 0 < (NewCharacterSet s).chars.length := List.length_pos.mpr hnil
  unfold CharacterSet.At
  by_cases hm : (NewCharacterSet s).mask ≠ 0
  · obtain ⟨-, hmask, -⟩ := mask_of_ne_zero s hm
    have hlt : i &&& (NewCharacterSet s).mask < (NewCharacterSet s).chars.length := by
      calc i &&& (NewCharacterSet s).mask ≤ (NewCharacterSet s).mask := Nat.and_le_right
        _ = (NewCharacterSet s).chars.length - 1 := hmask
        _ < (NewCharacterSet s).chars.length := by omega
    rw [if_pos hm, List.getElem?_eq_getElem hlt]
    exact ⟨_, rfl, List.getElem_mem hlt⟩
  · have hlt : i % (NewCharacterSet s).chars.length < (NewCharacterSet s).chars.length :=
      Nat.mod_lt i hpos
    rw [if_neg hm, if_neg (by omega), List.getElem?_eq_getElem hlt]
    exact ⟨_, rfl, List.getElem_mem hlt⟩

/-- C9 witness: `At` is total on the set built from `"abc"`. -/
theorem C9_At_total_witness :
    ∃ c, (NewCharacterSet [97, 98, 99]).At 7 = some c ∧
      c ∈ (NewCharacterSet [97, 98, 99]).chars :=
  C9_At_total_of_ne_nil [97, 98, 99] (by decide) 7

/-! ## C7 — worker-count bounds after validation -/

/-- C7 (counterexample): on a host with 64 CPUs, a valid configuration
with `Workers = 0` passes validation but ends with `Workers = 64`:
the default `runtime.NumCPU()` value is assigned in the `Workers <= 0`
branch and the 32-cap lives only in the `else if`, so the defaulted
value is never capped. -/
theorem C7_workers_counterexample :
    (Validate 64 ⟨1, 15, 1, some (NewCharacterSet [97, 98]), true, 0, 1000, true, true⟩).1
        = [] ∧
    (Validate 64 ⟨1, 15, 1, some (NewCharacterSet [97, 98]), true, 0, 1000, true, true⟩).2.workers
        = 64 ∧
    ¬ (Validate 64 ⟨1, 15, 1, some (NewCharacterSet [97, 98]), true, 0, 1000, true, true⟩).2.workers
        ≤ 32 := by
  refine ⟨rfl, rfl, ?_⟩
  decide

/-- C7 (amended): after validation an explicitly positive `Workers`
value lies in `[1, 32]` (capped at 32), while a zero or negative
`Workers` is replaced by the host parallelism with NO cap applied. -/
theorem C7_workers_amended (numCPU : Int) (gc : GeneratorConfig) :
    (0 < gc.workers →
      1 ≤ (Validate numCPU gc).2.workers ∧ (Validate numCPU gc).2.workers ≤ 32) ∧
    (gc.workers ≤ 0 → (Validate numCPU gc).2.workers = numCPU) := by
  simp only [Validate]
  constructor
  · intro hpos
    split
    · omega
    · split <;> omega
  · intro hnonpos
    rw [if_pos hnonpos]

/-- C7 witness: an explicit `Workers = 50` is capped to 32. -/
theorem C7_workers_amended_witness :
    1 ≤ (Validate 64 ⟨1, 15, 1, some (NewCharacterSet [97, 98]), true, 50, 1000, true, true⟩).2.workers ∧
    (Validate 64 ⟨1, 15, 1, some (NewCharacterSet [97, 98]), true, 50, 1000, true, true⟩).2.workers ≤ 32 :=
  (C7_workers_amended 64 ⟨1, 15, 1, some (NewCharacterSet [97, 98]), true, 50, 1000, true, true⟩).1
    (by decide)

/-! ## C4 — fail-closed entropy source -/

/-- C4: the entropy source is fail-closed: the health flag starts `true`
(`NewEntropySource`); any OS-level read failure on a healthy source sets
it to `false` (flagging the error counter and the attempted OS call);
no `GenerateBytes` call ever turns the flag back from `false` to `true`;
and once it is `false` every `GenerateBytes` or `GenerateUint64` call
fails immediately with the state (including the OS-call counter)
unchanged — hence any further sequence of calls leaves the source
exactly where it was, never attempting the OS read. -/
theorem C4_fail_closed (osOk : Nat → Bool) :
    NewEntropySource.health = true ∧
    (∀ n s, s.health = true → osOk s.osCalls = false →
      GenerateBytes osOk n s
        = (.failed, { s with health := false, errCount := s.errCount + 1,
                             osCalls := s.osCalls + 1 }) ∧
      (GenerateBytes osOk n s).2.health = false) ∧
    (∀ n s, (GenerateBytes osOk n s).2.health = true → s.health = true) ∧
    (∀ n s, s.health = false → GenerateBytes osOk n s = (.failed, s)) ∧
    (∀ s, s.health = false → GenerateUint64 osOk s = (.failed, s)) ∧
    (∀ ns s, s.health = false → esRun osOk ns s = s) := by
  have hdead : ∀ n s, s.health = false → GenerateBytes osOk n s = (.failed, s) := by
    intro n s hs
    unfold GenerateBytes
    rw [if_pos hs]
  have hflip : ∀ n s, s.health = true → osOk s.osCalls = false →
      GenerateBytes osOk n s
        = (.failed, { s with health := false, errCount := s.errCount + 1,
                             osCalls := s.osCalls + 1 }) := by
    intro n s hs hfail
    unfold GenerateBytes
    rw [if_neg (by simp [hs]), if_neg (by simp [hfail])]
  refine ⟨rfl, fun n s hs hfail => ⟨hflip n s hs hfail, by rw [hflip n s hs hfail]⟩,
    ?_, hdead, fun s hs => hdead 8 s hs, ?_⟩
  · intro n s h
    unfold GenerateBytes at h
    by_cases hs : s.health = false
    · rw [if_pos hs] at h
      exact absurd h (by simp [hs])
    · simpa using hs
  · intro ns
    induction ns with
    | nil => intro s _; rfl
    | cons n rest ih =>
      intro s hs
      show esRun osOk rest (GenerateBytes osOk n s).2 = s
      rw [hdead n s hs]
      exact ih s hs

/-- C4 witness: a healthy source whose OS read fails ends unhealthy with
its counters flagged, and a concrete unhealthy state is left untouched
and fails. -/
theorem C4_fail_closed_witness :
    NewEntropySource.health = true ∧
    GenerateBytes (fun _ => false) 8 ⟨true, 5, 0, 3⟩ = (.failed, ⟨false, 5, 1, 4⟩) ∧
    (GenerateBytes (fun _ => false) 8 ⟨true, 5, 0, 3⟩).2.health = false ∧
    GenerateBytes (fun _ => true) 8 ⟨false, 5, 1, 3⟩ = (.failed, ⟨false, 5, 1, 3⟩) ∧
    esRun (fun _ => true) [8, 8, 16] ⟨false, 5, 1, 3⟩ = ⟨false, 5, 1, 3⟩ :=
  ⟨(C4_fail_closed (fun _ => true)).1,
   ((C4_fail_closed (fun _ => false)).2.1 8 ⟨true, 5, 0, 3⟩ rfl rfl).1,
   ((C4_fail_closed (fun _ => false)).2.1 8 ⟨true, 5, 0, 3⟩ rfl rfl).2,
   (C4_fail_closed (fun _ => true)).2.2.2.1 8 ⟨false, 5, 1, 3⟩ rfl,
   (C4_fail_closed (fun _ => true)).2.2.2.2.2 [8, 8, 16] ⟨false, 5, 1, 3⟩ rfl⟩

/-! ## C3 — deterministic rejection of invalid configurations -/

/-- C3: every configuration with an out-of-range length or count, a
missing/empty charset, or a charset of more than 256 symbols is rejected
by `Generate` (and `GenerateBatch`) with the corresponding validation
error, and the draw position is returned unchanged: the entropy source
is never called. -/
theorem C3_invalid_config_rejected (es : ES) (cancelAt : Option Nat) (numCPU : Int)
    (gc : GeneratorConfig) (pos : Nat)
    (hbad : gc.length ≤ 0 ∨ gc.length > 1024 ∨ gc.count ≤ 0 ∨ gc.count > 1000 ∨
      gc.charset = none ∨ ∃ cs, gc.charset = some cs ∧ (cs.Len = 0 ∨ cs.Len > 256)) :
    (Validate numCPU gc).1 ≠ [] ∧
    Generate es cancelAt numCPU gc pos
      = (.error (.invalidConfig (Validate numCPU gc).1), pos) ∧
    GenerateBatch es cancelAt numCPU gc pos
      = ([], some (.invalidConfig (Validate numCPU gc).1), pos) ∧
    ((gc.length ≤ 0 ∨ gc.length > 1024) →
      ValidationError.invalidLength ∈ (Validate numCPU gc).1) ∧
    ((gc.count ≤ 0 ∨ gc.count > 1000) →
      ValidationError.invalidCount ∈ (Validate numCPU gc).1) ∧
    ((gc.charset = none ∨ ∃ cs, gc.charset = some cs ∧ cs.Len = 0) →
      ValidationError.emptyCharset ∈ (Validate numCPU gc).1) ∧
    ((∃ cs, gc.charset = some cs ∧ cs.Len > 256) →
      ValidationError.charsetTooLarge ∈ (Validate numCPU gc).1) := by
  have hmem1 : (gc.length ≤ 0 ∨ gc.length > 1024) →
      ValidationError.invalidLength ∈ (Validate numCPU gc).1 := by
    intro h
    simp only [Validate]
    exact List.mem_append_left _ (List.mem_append_left _ (by
      rw [if_pos h]; exact List.mem_singleton_self _))
  have hmem2 : (gc.count ≤ 0 ∨ gc.count > 1000) →
      ValidationError.invalidCount ∈ (Validate numCPU gc).1 := by
    intro h
    simp only [Validate]
    exact List.mem_append_left _ (List.mem_append_right _ (by
      rw [if_pos h]; exact List.mem_singleton_self _))
  have hmem3 : (gc.charset = none ∨ ∃ cs, gc.charset = some cs ∧ cs.Len = 0) →
      ValidationError.emptyCharset ∈ (Validate numCPU gc).1 := by
    intro h
    simp only [Validate]
    refine List.mem_append_right _ ?_
    rcases h with h | ⟨cs, hcs, hlen⟩
    · rw [h]
      exact List.mem_singleton_self _
    · rw [hcs]
      simp only
      rw [if_pos hlen]
      exact List.mem_singleton_self _
  have hmem4 : (∃ cs, gc.charset = some cs ∧ cs.Len > 256) →
      ValidationError.charsetTooLarge ∈ (Validate numCPU gc).1 := by
    intro ⟨cs, hcs, hlen⟩
    simp only [Validate]
    refine List.mem_append_right _ ?_
    rw [hcs]
    simp only
    rw [if_neg (by omega), if_pos hlen]
    exact List.mem_singleton_self _
  have hne : (Validate numCPU gc).1 ≠ [] := by
    rcases hbad with h | h | h | h | h | h
    · exact List.ne_nil_of_mem (hmem1 (Or.inl h))
    · exact List.ne_nil_of_mem (hmem1 (Or.inr h))
    · exact List.ne_nil_of_mem (hmem2 (Or.inl h))
    · exact List.ne_nil_of_mem (hmem2 (Or.inr h))
    · exact List.ne_nil_of_mem (hmem3 (Or.inl h))
    · obtain ⟨cs, hcs, hlen | hlen⟩ := h
      · exact List.ne_nil_of_mem (hmem3 (Or.inr ⟨cs, hcs, hlen⟩))
      · exact List.ne_nil_of_mem (hmem4 ⟨cs, hcs, hlen⟩)
  refine ⟨hne, ?_, ?_, hmem1, hmem2, hmem3, hmem4⟩
  · simp only [Generate]
    rw [if_pos hne]
  · simp only [GenerateBatch]
    rw [if_pos hne]

/-- C3 witness: a configuration with length 0, count 2000 and an empty
charset is rejected with all three corresponding errors, entropy
untouched. -/
theorem C3_invalid_config_rejected_witness :
    (Validate 4 ⟨2, 0, 2000, some (NewCharacterSet []), false, 1, 1000, true, true⟩).1 ≠ [] ∧
    Generate (fun p => some p) none 4
        ⟨2, 0, 2000, some (NewCharacterSet []), false, 1, 1000, true, true⟩ 0
      = (.error (.invalidConfig
          (Validate 4 ⟨2, 0, 2000, some (NewCharacterSet []), false, 1, 1000, true, true⟩).1), 0) ∧
    GenerateBatch (fun p => some p) none 4
        ⟨2, 0, 2000, some (NewCharacterSet []), false, 1, 1000, true, true⟩ 0
      = ([], some (.invalidConfig
          (Validate 4 ⟨2, 0, 2000, some (NewCharacterSet []), false, 1, 1000, true, true⟩).1), 0) ∧
    ((0 : Int) ≤ 0 ∨ (0 : Int) > 1024 →
      ValidationError.invalidLength ∈
        (Validate 4 ⟨2, 0, 2000, some (NewCharacterSet []), false, 1, 1000, true, true⟩).1) ∧
    ((2000 : Int) ≤ 0 ∨ (2000 : Int) > 1000 →
      ValidationError.invalidCount ∈
        (Validate 4 ⟨2, 0, 2000, some (NewCharacterSet []), false, 1, 1000, true, true⟩).1) ∧
    ((some (NewCharacterSet []) = none ∨
        ∃ cs, some (NewCharacterSet []) = some cs ∧ cs.Len = 0) →
      ValidationError.emptyCharset ∈
        (Validate 4 ⟨2, 0, 2000, some (NewCharacterSet []), false, 1, 1000, true, true⟩).1) ∧
    ((∃ cs, some (NewCharacterSet []) = some cs ∧ cs.Len > 256) →
      ValidationError.charsetTooLarge ∈
        (Validate 4 ⟨2, 0, 2000, some (NewCharacterSet []), false, 1, 1000, true, true⟩).1) :=
  C3_invalid_config_rejected (fun p => some p) none 4
    ⟨2, 0, 2000, some (NewCharacterSet []), false, 1, 1000, true, true⟩ 0
    (Or.inl (by decide))

/-! ## Error-kind lemmas: the generation pipeline never fabricates a
validation error after validation has passed. -/

theorem rejLoopGo_error_kind (es : ES) (L : Nat) :
    ∀ k idx pos e posN, rejLoopGo es L idx pos k = (.error e, posN) →
      e = .excessiveRejection ∨ e = .entropyFailure := by
  intro k
  induction k with
  | zero =>
    intro idx pos e posN h
    unfold rejLoopGo at h
    split at h <;> simp_all
  | succ k ih =>
    intro idx pos e posN h
    unfold rejLoopGo at h
    split at h
    · split at h
      · simp_all
      · exact ih _ _ _ _ h
    · simp_all

theorem selectChar_error_kind (es : ES) (cs : CharacterSet) (idx pos : Nat)
    (e : GenError) (posN : Nat) (h : selectChar es cs idx pos = (.error e, posN)) :
    e = .panicked ∨ e = .excessiveRejection ∨ e = .entropyFailure := by
  unfold selectChar at h
  split at h
  · split at h <;> simp_all
  · split at h
    · simp_all
    · split at h
      · split at h <;> simp_all
      · next heq =>
        have := rejLoopGo_error_kind es cs.chars.length 10 idx pos _ _ heq
        simp_all

theorem selLoop_error_kind (es : ES) (cs : CharacterSet) :
    ∀ l pos e posN, selLoop es cs l pos = (.error e, posN) →
      e = .panicked ∨ e = .excessiveRejection ∨ e = .entropyFailure := by
  intro l
  induction l with
  | nil =>
    intro pos e posN h
    simp [selLoop] at h
  | cons idx rest ih =>
    intro pos e posN h
    unfold selLoop at h
    split at h
    · split at h
      · simp_all
      · next heq =>
        obtain ⟨rfl, rfl⟩ : _ ∧ _ := by
          have := h
          simp only [Prod.mk.injEq, Except.error.injEq] at this
          exact ⟨this.1.symm, this.2.symm⟩
        exact ih _ _ _ heq
    · next heq =>
      obtain ⟨rfl, rfl⟩ : _ ∧ _ := by
        have := h
        simp only [Prod.mk.injEq, Except.error.injEq] at this
        exact ⟨this.1.symm, this.2.symm⟩
      exact selectChar_error_kind es cs idx pos _ _ heq

theorem drawLoop_error_kind (es : ES) (cancelAt : Option Nat) :
    ∀ n pos e buf posN, drawLoop es cancelAt n pos = (.error e, buf, posN) →
      e = .cancelled ∨ e = .entropyFailure := by
  intro n
  induction n with
  | zero =>
    intro pos e buf posN h
    simp [drawLoop] at h
  | succ n ih =>
    intro pos e buf posN h
    unfold drawLoop at h
    split at h
    · simp_all
    · split at h
      · simp_all
      · next v heq =>
        simp only [Prod.mk.injEq] at h
        obtain ⟨h1, h2, h3⟩ := h
        exact ih (pos + 1) e (drawLoop es cancelAt n (pos + 1)).2.1
          (drawLoop es cancelAt n (pos + 1)).2.2 (by rw [← h1])

theorem gss_error_kind (es : ES) (cancelAt : Option Nat) (len : Int)
    (cs : CharacterSet) (pos : Nat) (e : GenError)
    (h : (generateSecureString es cancelAt len cs pos).res = .error e) :
    e = .nonPositiveLength ∨ e = .cancelled ∨ e = .entropyFailure ∨
    e = .panicked ∨ e = .excessiveRejection := by
  unfold generateSecureString at h
  split at h
  · simp_all
  · split at h
    · next heq =>
      simp only at h
      cases h
      rcases drawLoop_error_kind es cancelAt _ _ _ _ _ heq with h | h <;> simp [h]
    · split at h
      · simp_all
      · next heq =>
        simp only at h
        cases h
        rcases selLoop_error_kind es cs _ _ _ _ heq with h | h | h <;> simp [h]

theorem hyph_error_kind (es : ES) (cancelAt : Option Nat) (gc : GeneratorConfig)
    (pos : Nat) (e : GenError) (posN : Nat)
    (h : generateHyphenatedString es cancelAt gc pos = (.error e, posN)) :
    e = .nonPositiveLength ∨ e = .cancelled ∨ e = .entropyFailure ∨
    e = .panicked ∨ e = .excessiveRejection := by
  unfold generateHyphenatedString at h
  split at h
  · simp only [Prod.mk.injEq, Except.error.injEq] at h
    exact Or.inr (Or.inr (Or.inr (Or.inl h.1.symm)))
  · rename_i cs hcs
    split at h
    · rename_i e0 b0 p0 hg0
      simp only [Prod.mk.injEq, Except.error.injEq] at h
      obtain ⟨h1, -⟩ := h
      subst h1
      exact gss_error_kind es cancelAt 6 cs pos _ (by rw [hg0])
    · rename_i g0 b0 p0 hg0
      split at h
      · rename_i e1 b1 p1 hg1
        simp only [Prod.mk.injEq, Except.error.injEq] at h
        obtain ⟨h1, -⟩ := h
        subst h1
        exact gss_error_kind es cancelAt 6 cs p0 _ (by rw [hg1])
      · rename_i g1 b1 p1 hg1
        split at h
        · rename_i e2 b2 p2 hg2
          simp only [Prod.mk.injEq, Except.error.injEq] at h
          obtain ⟨h1, -⟩ := h
          subst h1
          exact gss_error_kind es cancelAt 6 cs p1 _ (by rw [hg2])
        · simp at h

/-- Auxiliary: `generateHyphenatedString` only reads the charset of its
configuration argument. -/
theorem hyph_congr (es : ES) (cancelAt : Option Nat) (pos : Nat)
    (gc gc' : GeneratorConfig) (h : gc.charset = gc'.charset) :
    generateHyphenatedString es cancelAt gc pos
      = generateHyphenatedString es cancelAt gc' pos := by
  unfold generateHyphenatedString
  rw [h]

/-! ## C10 — the Type field is never validated; unknown types fall back
to the hyphenated generator -/

/-- C10: `Validate` never inspects the `Type` field (its output is
invariant under changing it), and for any `Type` value other than
`GeneratorHyphenated`/`GeneratorCompact`, `Generate` behaves exactly as
for `GeneratorHyphenated`; in particular, if the rest of the
configuration is valid it returns no validation error. -/
theorem C10_unknown_type_falls_back (es : ES) (cancelAt : Option Nat) (numCPU : Int)
    (gc : GeneratorConfig) (t : Nat) (pos : Nat) :
    (Validate numCPU { gc with type := t }).1 = (Validate numCPU gc).1 ∧
    (Validate numCPU { gc with type := t }).2 = { (Validate numCPU gc).2 with type := t } ∧
    (t ≠ GeneratorHyphenated → t ≠ GeneratorCompact →
      Generate es cancelAt numCPU { gc with type := t } pos
        = Generate es cancelAt numCPU { gc with type := GeneratorHyphenated } pos) ∧
    ((Validate numCPU gc).1 = [] →
      ∀ errs posN, Generate es cancelAt numCPU { gc with type := t } pos
        ≠ (.error (.invalidConfig errs), posN)) := by
  refine ⟨rfl, rfl, ?_, ?_⟩
  · intro ht1 ht2
    simp only [Generate]
    have hv1 : (Validate numCPU { gc with type := t }).1 = (Validate numCPU gc).1 := rfl
    have hv1' : (Validate numCPU { gc with type := GeneratorHyphenated }).1
        = (Validate numCPU gc).1 := rfl
    have ht : (Validate numCPU { gc with type := t }).2.type = t := rfl
    have ht' : (Validate numCPU { gc with type := GeneratorHyphenated }).2.type
        = GeneratorHyphenated := rfl
    rw [hv1, hv1', ht, ht']
    by_cases he : (Validate numCPU gc).1 = []
    · have hne' : ¬((Validate numCPU gc).1 ≠ []) := by simp [he]
      rw [if_neg hne', if_neg hne']
      by_cases hc : ctxDone cancelAt pos = true
      · rw [if_pos hc, if_pos hc]
      · rw [if_neg hc, if_neg hc, if_neg ht2,
            if_neg (show GeneratorHyphenated ≠ GeneratorCompact by decide)]
        exact hyph_congr es cancelAt pos
          (Validate numCPU { gc with type := t }).2
          (Validate numCPU { gc with type := GeneratorHyphenated }).2 rfl
    · rw [if_pos he, if_pos he]
  · intro hval errs posN
    simp only [Generate]
    have hv1 : (Validate numCPU { gc with type := t }).1 = (Validate numCPU gc).1 := rfl
    rw [hv1, hval]
    rw [if_neg (show ¬(([] : List ValidationError) ≠ []) by simp)]
    by_cases hc : ctxDone cancelAt pos = true
    · rw [if_pos hc]
      simp
    · rw [if_neg hc]
      split
      · intro hcontra
        simp only [Prod.mk.injEq] at hcontra
        obtain ⟨hres, -⟩ := hcontra
        unfold generateCompactString at hres
        cases hcs : (Validate numCPU { gc with type := t }).2.charset with
        | none =>
          rw [hcs] at hres
          simp at hres
        | some cs =>
          rw [hcs] at hres
          rcases gss_error_kind es cancelAt _ cs pos _ hres with h | h | h | h | h <;>
            simp at h
      · intro hcontra
        rcases hyph_error_kind es cancelAt _ pos _ posN hcontra with h | h | h | h | h <;>
          simp at h

/-- C10 witness: a configuration with the unknown type 7 generates
exactly what the hyphenated type generates. -/
theorem C10_unknown_type_falls_back_witness :
    Generate (fun p => some p) none 1
        ⟨7, 15, 1, some (NewCharacterSet [97, 98, 99]), false, 1, 1000, true, true⟩ 0
      = Generate (fun p => some p) none 1
        ⟨1, 15, 1, some (NewCharacterSet [97, 98, 99]), false, 1, 1000, true, true⟩ 0 :=
  (C10_unknown_type_falls_back (fun p => some p) none 1
    ⟨0, 15, 1, some (NewCharacterSet [97, 98, 99]), false, 1, 1000, true, true⟩
    7 0).2.2.1 (by decide) (by decide)

/-! ## C2 — output shape -/

theorem At_mem (cs : CharacterSet) (i c : Nat) (h : cs.At i = some c) :
    c ∈ cs.chars := by
  unfold CharacterSet.At at h
  split at h
  · obtain ⟨hlt, hget⟩ := List.getElem?_eq_some_iff.mp h
    exact hget ▸ List.getElem_mem hlt
  · split at h
    · cases h
    · obtain ⟨hlt, hget⟩ := List.getElem?_eq_some_iff.mp h
      exact hget ▸ List.getElem_mem hlt

theorem selectChar_ok_mem (es : ES) (cs : CharacterSet) (idx pos c posN : Nat)
    (h : selectChar es cs idx pos = (.ok c, posN)) : c ∈ cs.chars := by
  unfold selectChar at h
  split at h
  · split at h
    · rename_i hAt
      simp only [Prod.mk.injEq, Except.ok.injEq] at h
      exact h.1 ▸ At_mem cs idx _ hAt
    · simp at h
  · split at h
    · simp at h
    · split at h
      · split at h
        · rename_i hAt
          simp only [Prod.mk.injEq, Except.ok.injEq] at h
          exact h.1 ▸ At_mem cs _ _ hAt
        · simp at h
      · simp at h

theorem selLoop_ok (es : ES) (cs : CharacterSet) :
    ∀ l pos out posN, selLoop es cs l pos = (.ok out, posN) →
      out.length = l.length ∧ ∀ c ∈ out, c ∈ cs.chars := by
  intro l
  induction l with
  | nil =>
    intro pos out posN h
    simp only [selLoop, Prod.mk.injEq, Except.ok.injEq] at h
    obtain ⟨h1, -⟩ := h
    subst h1
    exact ⟨rfl, by simp⟩
  | cons idx rest ih =>
    intro pos out posN h
    unfold selLoop at h
    split at h
    · rename_i c pos1 hsel
      split at h
      · rename_i out1 pos2 hrest
        simp only [Prod.mk.injEq, Except.ok.injEq] at h
        obtain ⟨h1, -⟩ := h
        subst h1
        obtain ⟨hlen, hmem⟩ := ih pos1 out1 pos2 hrest
        refine ⟨by simp [hlen], ?_⟩
        intro x hx
        rcases List.mem_cons.mp hx with rfl | hx'
        · exact selectChar_ok_mem es cs idx pos x pos1 hsel
        · exact hmem x hx'
      · simp at h
    · simp at h

theorem drawLoop_ok_length (es : ES) (cancelAt : Option Nat) :
    ∀ n pos buf posN, drawLoop es cancelAt n pos = (.ok (), buf, posN) →
      buf.length = n := by
  intro n
  induction n with
  | zero =>
    intro pos buf posN h
    simp only [drawLoop, Prod.mk.injEq] at h
    obtain ⟨-, h2, -⟩ := h
    simp [← h2]
  | succ n ih =>
    intro pos buf posN h
    unfold drawLoop at h
    split at h
    · simp at h
    · split at h
      · simp at h
      · rename_i v hv
        simp only [Prod.mk.injEq] at h
        obtain ⟨h1, h2, h3⟩ := h
        have := ih (pos + 1) (drawLoop es cancelAt n (pos + 1)).2.1
          (drawLoop es cancelAt n (pos + 1)).2.2 (by rw [← h1])
        simp [← h2, this]

theorem gss_ok (es : ES) (cancelAt : Option Nat) (len : Int) (cs : CharacterSet)
    (pos : Nat) (out : List Nat)
    (h : (generateSecureString es cancelAt len cs pos).res = .ok out) :
    out.length = len.toNat ∧ ∀ c ∈ out, c ∈ cs.chars := by
  unfold generateSecureString at h
  split at h
  · simp at h
  · split at h
    · simp at h
    · rename_i u indices posN hdraw
      split at h
      · rename_i out1 posF hsel
        simp only [Except.ok.injEq] at h
        subst h
        obtain ⟨hlen, hmem⟩ := selLoop_ok es cs indices posN out1 posF hsel
        have hil : indices.length = len.toNat := by
          cases u
          exact drawLoop_ok_length es cancelAt len.toNat pos indices posN hdraw
        exact ⟨hlen.trans hil, hmem⟩
      · simp at h

theorem hyph_ok (es : ES) (cancelAt : Option Nat) (gc : GeneratorConfig)
    (pos : Nat) (out : List Nat) (posN : Nat)
    (h : generateHyphenatedString es cancelAt gc pos = (.ok out, posN)) :
    ∃ cs, gc.charset = some cs ∧ ∃ g0 g1 g2,
      out = g0 ++ 45 :: (g1 ++ 45 :: g2) ∧
      g0.length = 6 ∧ g1.length = 6 ∧ g2.length = 6 ∧
      (∀ c ∈ g0, c ∈ cs.chars) ∧ (∀ c ∈ g1, c ∈ cs.chars) ∧
      (∀ c ∈ g2, c ∈ cs.chars) := by
  unfold generateHyphenatedString at h
  split at h
  · simp at h
  · rename_i cs hcs
    split at h
    · simp at h
    · rename_i g0 b0 p0 hg0
      split at h
      · simp at h
      · rename_i g1 b1 p1 hg1
        split at h
        · simp at h
        · rename_i g2 b2 p2 hg2
          simp only [Prod.mk.injEq, Except.ok.injEq] at h
          obtain ⟨h1, -⟩ := h
          obtain ⟨hl0, hm0⟩ := gss_ok es cancelAt 6 cs pos g0 (by rw [hg0])
          obtain ⟨hl1, hm1⟩ := gss_ok es cancelAt 6 cs p0 g1 (by rw [hg1])
          obtain ⟨hl2, hm2⟩ := gss_ok es cancelAt 6 cs p1 g2 (by rw [hg2])
          exact ⟨cs, hcs, g0, g1, g2, h1.symm, hl0, hl1, hl2, hm0, hm1, hm2⟩

/-- Positional content of the hyphenated layout `g0 ++ "-" ++ g1 ++ "-" ++ g2`
with three six-character groups. -/
theorem hyphShape (g0 g1 g2 : List Nat) (P : Nat → Prop)
    (h0 : g0.length = 6) (h1 : g1.length = 6) (h2 : g2.length = 6)
    (hm0 : ∀ c ∈ g0, P c) (hm1 : ∀ c ∈ g1, P c) (hm2 : ∀ c ∈ g2, P c) :
    (g0 ++ 45 :: (g1 ++ 45 :: g2)).length = 20 ∧
    (g0 ++ 45 :: (g1 ++ 45 :: g2))[6]? = some 45 ∧
    (g0 ++ 45 :: (g1 ++ 45 :: g2))[13]? = some 45 ∧
    ∀ i, i < 20 → i ≠ 6 → i ≠ 13 →
      ∃ c, (g0 ++ 45 :: (g1 ++ 45 :: g2))[i]? = some c ∧ P c := by
  refine ⟨by simp [h0, h1, h2], ?_, ?_, ?_⟩
  · rw [List.getElem?_append_right (by omega), h0]
    simp
  · rw [List.getElem?_append_right (by omega), h0]
    have he : (13 : Nat) - 6 = 6 + 1 := by omega
    rw [he, List.getElem?_cons_succ, List.getElem?_append_right (by omega), h1]
    simp
  · intro i hi h6 h13
    by_cases hlt : i < 6
    · rw [List.getElem?_append_left (by omega)]
      have hi' : i < g0.length := by omega
      exact ⟨g0[i], List.getElem?_eq_getElem hi', hm0 _ (List.getElem_mem hi')⟩
    · rw [List.getElem?_append_right (by omega), h0]
      have he : i - 6 = (i - 7) + 1 := by omega
      rw [he, List.getElem?_cons_succ]
      by_cases hlt2 : i < 13
      · rw [List.getElem?_append_left (by omega)]
        have hi' : i - 7 < g1.length := by omega
        exact ⟨g1[i - 7], List.getElem?_eq_getElem hi', hm1 _ (List.getElem_mem hi')⟩
      · rw [List.getElem?_append_right (by omega), h1]
        have he2 : i - 7 - 6 = (i - 14) + 1 := by omega
        rw [he2, List.getElem?_cons_succ]
        have hi' : i - 14 < g2.length := by omega
        exact ⟨g2[i - 14], List.getElem?_eq_getElem hi', hm2 _ (List.getElem_mem hi')⟩

/-- C2: whenever `Generate` succeeds, the output has the shape selected
by the format: for `GeneratorCompact` exactly `config.Length` characters,
all members of the configured charset; for `GeneratorHyphenated` exactly
20 characters with `-` (byte 45) at positions 6 and 13 and every other
position a member of the charset. -/
theorem C2_generate_shape (es : ES) (cancelAt : Option Nat) (numCPU : Int)
    (gc : GeneratorConfig) (pos : Nat) (out : List Nat) (posN : Nat)
    (h : Generate es cancelAt numCPU gc pos = (.ok out, posN)) :
    ∃ cs, gc.charset = some cs ∧
      (gc.type = GeneratorCompact →
        out.length = gc.length.toNat ∧ ∀ c ∈ out, c ∈ cs.chars) ∧
      (gc.type = GeneratorHyphenated →
        out.length = 20 ∧ out[6]? = some 45 ∧ out[13]? = some 45 ∧
        ∀ i, i < 20 → i ≠ 6 → i ≠ 13 → ∃ c, out[i]? = some c ∧ c ∈ cs.chars) := by
  simp only [Generate] at h
  by_cases hv : (Validate numCPU gc).1 ≠ []
  · rw [if_pos hv] at h
    simp at h
  · rw [if_neg hv] at h
    by_cases hc : ctxDone cancelAt pos = true
    · rw [if_pos hc] at h
      simp at h
    · rw [if_neg hc] at h
      by_cases hty : (Validate numCPU gc).2.type = GeneratorCompact
      · rw [if_pos hty] at h
        simp only [Prod.mk.injEq] at h
        obtain ⟨hres, -⟩ := h
        unfold generateCompactString at hres
        split at hres
        · simp at hres
        · rename_i cs hcs
          obtain ⟨hlen, hmem⟩ := gss_ok es cancelAt gc.length cs pos out hres
          refine ⟨cs, hcs, fun _ => ⟨hlen, hmem⟩, fun hty1 => ?_⟩
          have hty' : gc.type = GeneratorCompact := hty
          rw [hty1] at hty'
          exact absurd hty' (by decide)
      · rw [if_neg hty] at h
        obtain ⟨cs, hcs, g0, g1, g2, hout, hl0, hl1, hl2, hm0, hm1, hm2⟩ :=
          hyph_ok es cancelAt _ pos out posN h
        obtain ⟨hs1, hs2, hs3, hs4⟩ :=
          hyphShape g0 g1 g2 (fun c => c ∈ cs.chars) hl0 hl1 hl2 hm0 hm1 hm2
        refine ⟨cs, hcs, fun hty2 => ?_, fun _ => ⟨hout ▸ hs1, hout ▸ hs2, hout ▸ hs3, hout ▸ hs4⟩⟩
        exact absurd (show (Validate numCPU gc).2.type = GeneratorCompact from hty2) hty

/-- C2 witness: a hyphenated generation under the identity stream has
the 20-character `XXXXXX-XXXXXX-XXXXXX` layout over charset `"abc"`. -/
theorem C2_generate_shape_witness :
    ∃ cs, (GeneratorConfig.mk 1 15 1 (some (NewCharacterSet [97, 98, 99]))
        false 1 1000 true true).charset = some cs ∧
      ((1 : Nat) = GeneratorCompact →
        ([97, 98, 99, 97, 98, 99, 45, 97, 98, 99, 97, 98, 99, 45,
          97, 98, 99, 97, 98, 99] : List Nat).length = (15 : Int).toNat ∧
        ∀ c ∈ ([97, 98, 99, 97, 98, 99, 45, 97, 98, 99, 97, 98, 99, 45,
          97, 98, 99, 97, 98, 99] : List Nat), c ∈ cs.chars) ∧
      ((1 : Nat) = GeneratorHyphenated →
        ([97, 98, 99, 97, 98, 99, 45, 97, 98, 99, 97, 98, 99, 45,
          97, 98, 99, 97, 98, 99] : List Nat).length = 20 ∧
        ([97, 98, 99, 97, 98, 99, 45, 97, 98, 99, 97, 98, 99, 45,
          97, 98, 99, 97, 98, 99] : List Nat)[6]? = some 45 ∧
        ([97, 98, 99, 97, 98, 99, 45, 97, 98, 99, 97, 98, 99, 45,
          97, 98, 99, 97, 98, 99] : List Nat)[13]? = some 45 ∧
        ∀ i, i < 20 → i ≠ 6 → i ≠ 13 →
          ∃ c, ([97, 98, 99, 97, 98, 99, 45, 97, 98, 99, 97, 98, 99, 45,
            97, 98, 99, 97, 98, 99] : List Nat)[i]? = some c ∧ c ∈ cs.chars) :=
  C2_generate_shape (fun p => some p) none 1
    ⟨1, 15, 1, some (NewCharacterSet [97, 98, 99]), false, 1, 1000, true, true⟩ 0
    [97, 98, 99, 97, 98, 99, 45, 97, 98, 99, 97, 98, 99, 45,
     97, 98, 99, 97, 98, 99] 18 (by decide)

/-! ## C5 — the redraw cap -/

theorem rejLoopGo_step (es : ES) (L idx pos k : Nat) (hidx : maxValid L ≤ idx) :
    rejLoopGo es L idx pos (k + 1)
      = match es pos with
        | none => (.error .entropyFailure, pos + 1)
        | some v => rejLoopGo es L (v % 2 ^ 64) (pos + 1) k := by
  conv_lhs => unfold rejLoopGo
  rw [if_pos hidx]

theorem rejLoopGo_all_rejected (es : ES) (L : Nat) :
    ∀ k idx pos, maxValid L ≤ idx →
      (∀ j, j < k → ∃ w, es (pos + j) = some w ∧ maxValid L ≤ w % 2 ^ 64) →
      rejLoopGo es L idx pos k = (.error .excessiveRejection, pos + k) := by
  intro k
  induction k with
  | zero =>
    intro idx pos hidx _
    simp [rejLoopGo, hidx]
  | succ k ih =>
    intro idx pos hidx hall
    obtain ⟨w, hw, hwr⟩ := hall 0 (Nat.succ_pos k)
    rw [Nat.add_zero] at hw
    rw [rejLoopGo_step es L idx pos k hidx, hw]
    show rejLoopGo es L (w % 2 ^ 64) (pos + 1) k = _
    have hrest := ih (w % 2 ^ 64) (pos + 1) hwr (fun j hj => by
      obtain ⟨w', hw', hwr'⟩ := hall (j + 1) (by omega)
      exact ⟨w', by rw [show pos + 1 + j = pos + (j + 1) from by omega]; exact hw', hwr'⟩)
    rw [hrest, show pos + 1 + k = pos + (k + 1) from by omega]

theorem rejLoopGo_congr (es es' : ES) (L : Nat) :
    ∀ k idx pos, (∀ j, j < k → es (pos + j) = es' (pos + j)) →
      rejLoopGo es L idx pos k = rejLoopGo es' L idx pos k := by
  intro k
  induction k with
  | zero => intro idx pos _; rfl
  | succ k ih =>
    intro idx pos hagree
    by_cases hidx : maxValid L ≤ idx
    · rw [rejLoopGo_step es L idx pos k hidx, rejLoopGo_step es' L idx pos k hidx]
      have h0 : es pos = es' pos := by
        have := hagree 0 (Nat.succ_pos k)
        rwa [Nat.add_zero] at this
      rw [h0]
      cases hes' : es' pos with
      | none => rfl
      | some v =>
        show rejLoopGo es L (v % 2 ^ 64) (pos + 1) k
          = rejLoopGo es' L (v % 2 ^ 64) (pos + 1) k
        exact ih _ _ (fun j hj => by
          rw [show pos + 1 + j = pos + (j + 1) from by omega]
          exact hagree (j + 1) (by omega))
    · unfold rejLoopGo
      rw [if_neg hidx, if_neg hidx]

/-- C5: redraws per character are capped at 10.  (i) If the initial
value is rejected and ten further draws are all rejected, the rejection
loop fails with `excessiveRejection` after consuming exactly those 10
redraws; (ii) the loop never reads the stream beyond its 10-redraw
window (so it does not retry further); (iii) a full
`generateSecureString` run whose first character hits the cap returns
the `excessiveRejection` error and no output string. -/
theorem C5_rejection_cap :
    (∀ (es : ES) (L idx pos : Nat),
      maxValid L ≤ idx →
      (∀ j, j < 10 → ∃ w, es (pos + j) = some w ∧ maxValid L ≤ w % 2 ^ 64) →
      rejLoop es L idx pos = (.error .excessiveRejection, pos + 10)) ∧
    (∀ (es es' : ES) (L idx pos : Nat),
      (∀ j, j < 10 → es (pos + j) = es' (pos + j)) →
      rejLoop es L idx pos = rejLoop es' L idx pos) ∧
    (∀ (es : ES) (cs : CharacterSet) (v0 : Nat),
      cs.mask = 0 → ¬ cs.chars.length = 0 →
      es 0 = some v0 → maxValid cs.chars.length ≤ v0 % 2 ^ 64 →
      (∀ j, j < 10 → ∃ w, es (1 + j) = some w ∧ maxValid cs.chars.length ≤ w % 2 ^ 64) →
      generateSecureString es none 1 cs 0
        = ⟨.error .excessiveRejection, [v0 % 2 ^ 64], 11⟩) := by
  refine ⟨fun es L idx pos hidx hall => rejLoopGo_all_rejected es L 10 idx pos hidx hall,
          fun es es' L idx pos hagree => rejLoopGo_congr es es' L 10 idx pos hagree,
          ?_⟩
  intro es cs v0 hmask hL hes0 hrej hall
  have hdraw : drawLoop es none 1 0 = (.ok (), [v0 % 2 ^ 64], 1) := by
    simp [drawLoop, ctxDone, hes0]
  have hloop : rejLoop es cs.chars.length (v0 % 2 ^ 64) 1
      = (.error .excessiveRejection, 11) := by
    have := rejLoopGo_all_rejected es cs.chars.length 10 (v0 % 2 ^ 64) 1 hrej hall
    simpa [rejLoop] using this
  have hsel : selectChar es cs (v0 % 2 ^ 64) 1 = (.error .excessiveRejection, 11) := by
    unfold selectChar
    rw [if_neg (by simp [hmask]), if_neg hL, hloop]
  have hselLoop : selLoop es cs [v0 % 2 ^ 64] 1 = (.error .excessiveRejection, 11) := by
    unfold selLoop
    rw [hsel]
  unfold generateSecureString
  rw [if_neg (by norm_num), show (1 : Int).toNat = 1 from rfl, hdraw]
  show (match selLoop es cs [v0 % 2 ^ 64] 1 with
    | (Except.ok out, posF) => SecOut.mk (Except.ok out) (List.replicate 1 0) posF
    | (Except.error e, posF) => SecOut.mk (Except.error e) [v0 % 2 ^ 64] posF)
      = ⟨.error .excessiveRejection, [v0 % 2 ^ 64], 11⟩
  rw [hselLoop]

/-- C5 witness: over the all-ones stream, the one-character generation
from the 3-symbol charset `"abc"` hits the cap and fails. -/
theorem C5_rejection_cap_witness :
    generateSecureString (fun _ => some (2 ^ 64 - 1)) none 1 (NewCharacterSet [97, 98, 99]) 0
      = ⟨.error .excessiveRejection, [(2 ^ 64 - 1) % 2 ^ 64], 11⟩ :=
  C5_rejection_cap.2.2 (fun _ => some (2 ^ 64 - 1)) (NewCharacterSet [97, 98, 99])
    (2 ^ 64 - 1) (by decide) (by decide) rfl (by decide)
    (fun j hj => ⟨2 ^ 64 - 1, rfl, by decide⟩)

/-! ## C1 — the index-selection algorithm -/

set_option maxRecDepth 4096 in
theorem pow2_bit_iff :
    ∀ n, n < 257 → 0 < n → (n &&& (n - 1) = 0 ↔ ∃ k, k ≤ 8 ∧ n = 2 ^ k) := by
  decide

/-- Each residue class `j < L` has exactly `m` members below `L * m`. -/
theorem card_filter_mod (L j : Nat) (_hL : 0 < L) (hj : j < L) :
    ∀ m, ((Finset.range (L * m)).filter (fun v => v % L = j)).card = m := by
  intro m
  induction m with
  | zero => simp
  | succ m ih =>
    have hdis : Disjoint ((Finset.range (L * m)).filter (fun v => v % L = j))
        (((Finset.range L).map (addLeftEmbedding (L * m))).filter (fun v => v % L = j)) := by
      rw [Finset.disjoint_left]
      intro x hxA hxB
      rw [Finset.mem_filter, Finset.mem_range] at hxA
      rw [Finset.mem_filter, Finset.mem_map] at hxB
      obtain ⟨⟨w, hw, hwx⟩, -⟩ := hxB
      simp only [addLeftEmbedding_apply] at hwx
      omega
    have hone : (((Finset.range L).map (addLeftEmbedding (L * m))).filter
        (fun v => v % L = j)) = {L * m + j} := by
      ext x
      simp only [Finset.mem_filter, Finset.mem_map, Finset.mem_range,
        addLeftEmbedding_apply, Finset.mem_singleton]
      constructor
      · rintro ⟨⟨w, hw, rfl⟩, hmod⟩
        rw [Nat.mul_add_mod, Nat.mod_eq_of_lt hw] at hmod
        rw [hmod]
      · rintro rfl
        exact ⟨⟨j, hj, rfl⟩, by rw [Nat.mul_add_mod, Nat.mod_eq_of_lt hj]⟩
    rw [show L * (m + 1) = L * m + L from by ring, Finset.range_add,
        Finset.filter_union, Finset.card_union_of_disjoint hdis, ih, hone,
        Finset.card_singleton]

theorem rejLoopGo_ok_lt (es : ES) (L : Nat) :
    ∀ k idx pos v posN, rejLoopGo es L idx pos k = (.ok v, posN) →
      v < maxValid L := by
  intro k
  induction k with
  | zero =>
    intro idx pos v posN h
    unfold rejLoopGo at h
    split at h
    · simp at h
    · next hlt =>
      simp only [Prod.mk.injEq, Except.ok.injEq] at h
      omega
  | succ k ih =>
    intro idx pos v posN h
    unfold rejLoopGo at h
    split at h
    · split at h
      · simp at h
      · exact ih _ _ _ _ h
    · next hlt =>
      simp only [Prod.mk.injEq, Except.ok.injEq] at h
      omega

theorem rejLoopGo_accept (es : ES) (L : Nat) (k idx pos : Nat)
    (hlt : idx < maxValid L) : rejLoopGo es L idx pos k = (.ok idx, pos) := by
  cases k with
  | zero =>
    unfold rejLoopGo
    rw [if_neg (by omega)]
  | succ k =>
    unfold rejLoopGo
    rw [if_neg (by omega)]

/-- C1 (counterexample): the one-symbol charset has length `1 = 2^0`, an
exact power of two, so the claim prescribes the masked fast path
`index = randomValue &&& 0 = 0` with no redraw; but the code stores
`mask = 0` for it (`len & (len-1) == 0` sets `mask = len-1 = 0`), takes
the rejection path with `limit = 2^64 - 1`, treats the drawn value
`2^64 - 1` as rejected, and after ten rejected redraws fails with
`excessiveRejection` instead of selecting index 0. -/
theorem C1_sampler_counterexample :
    (NewCharacterSet [97]).chars.length = 2 ^ 0 ∧
    (NewCharacterSet [97]).mask = 0 ∧
    (NewCharacterSet [97]).chars[(2 ^ 64 - 1) &&&
        ((NewCharacterSet [97]).chars.length - 1)]? = some 97 ∧
    selectChar (fun _ => some (2 ^ 64 - 1)) (NewCharacterSet [97]) (2 ^ 64 - 1) 0
      = (.error .excessiveRejection, 10) := by
  refine ⟨rfl, rfl, by decide, by decide⟩

/-- C1 (amended): for every charset produced by `NewCharacterSet` with
length `L ∈ [1, 256]`: the masked fast path `index = idx &&& (L-1)`
applies exactly when `L` is a power of two with `L ≥ 2` (consuming no
extra draw); for every other `L` — including `L = 1` — the sampler uses
rejection sampling with `limit = maxUint64 - maxUint64 % L`: a value
below the limit is accepted immediately, a value at or above it triggers
a redraw of a fresh 64-bit value, the first accepted value is reduced
modulo `L`, and the map from `[0, limit)` to `[0, L)` is exactly
`(limit / L)`-to-one. -/
theorem C1_sampler_amended (s : List Nat) (es : ES) (idx pos : Nat)
    (hL1 : 1 ≤ (NewCharacterSet s).chars.length)
    (hL2 : (NewCharacterSet s).chars.length ≤ 256) :
    ((NewCharacterSet s).mask ≠ 0 ↔
      2 ≤ (NewCharacterSet s).chars.length ∧
      ∃ k, k ≤ 8 ∧ (NewCharacterSet s).chars.length = 2 ^ k) ∧
    ((NewCharacterSet s).mask ≠ 0 →
      ∃ c, (NewCharacterSet s).chars[idx &&&
          ((NewCharacterSet s).chars.length - 1)]? = some c ∧
        selectChar es (NewCharacterSet s) idx pos = (.ok c, pos)) ∧
    ((NewCharacterSet s).mask = 0 →
      (maxValid (NewCharacterSet s).chars.length
          = U64MAX - U64MAX % (NewCharacterSet s).chars.length ∧
        (NewCharacterSet s).chars.length ∣
          maxValid (NewCharacterSet s).chars.length) ∧
      (idx < maxValid (NewCharacterSet s).chars.length →
        rejLoop es (NewCharacterSet s).chars.length idx pos = (.ok idx, pos)) ∧
      (∀ k, maxValid (NewCharacterSet s).chars.length ≤ idx →
        rejLoopGo es (NewCharacterSet s).chars.length idx pos (k + 1)
          = match es pos with
            | none => (.error .entropyFailure, pos + 1)
            | some v =>
              rejLoopGo es (NewCharacterSet s).chars.length (v % 2 ^ 64) (pos + 1) k) ∧
      (∀ v posN,
        rejLoop es (NewCharacterSet s).chars.length idx pos = (.ok v, posN) →
        v < maxValid (NewCharacterSet s).chars.length ∧
        ∃ c, (NewCharacterSet s).chars[v % (NewCharacterSet s).chars.length]?
            = some c ∧
          selectChar es (NewCharacterSet s) idx pos = (.ok c, posN)) ∧
      (∀ e posN,
        rejLoop es (NewCharacterSet s).chars.length idx pos = (.error e, posN) →
        selectChar es (NewCharacterSet s) idx pos = (.error e, posN)) ∧
      (∀ j, j < (NewCharacterSet s).chars.length →
        ((Finset.range (maxValid (NewCharacterSet s).chars.length)).filter
            (fun v => v % (NewCharacterSet s).chars.length = j)).card
          = maxValid (NewCharacterSet s).chars.length /
              (NewCharacterSet s).chars.length)) := by
  have hdvd : (NewCharacterSet s).chars.length ∣
      maxValid (NewCharacterSet s).chars.length := by
    refine ⟨U64MAX / (NewCharacterSet s).chars.length, ?_⟩
    have := Nat.mod_add_div U64MAX (NewCharacterSet s).chars.length
    unfold maxValid
    omega
  refine ⟨⟨?_, ?_⟩, ?_, ?_⟩
  · intro hm
    obtain ⟨hpos, hmask, hbit⟩ := mask_of_ne_zero s hm
    have h2 : 2 ≤ (NewCharacterSet s).chars.length := by omega
    exact ⟨h2, (pow2_bit_iff (NewCharacterSet s).chars.length (by omega) hpos).mp hbit⟩
  · rintro ⟨h2, k, hk, hLk⟩
    have hbit : (NewCharacterSet s).chars.length &&&
        ((NewCharacterSet s).chars.length - 1) = 0 :=
      (pow2_bit_iff (NewCharacterSet s).chars.length (by omega) (by omega)).mpr
        ⟨k, hk, hLk⟩
    have hmdef : (NewCharacterSet s).mask =
        if 0 < (NewCharacterSet s).chars.length ∧
            (NewCharacterSet s).chars.length &&&
              ((NewCharacterSet s).chars.length - 1) = 0
        then (NewCharacterSet s).chars.length - 1 else 0 := rfl
    rw [hmdef, if_pos ⟨by omega, hbit⟩]
    omega
  · intro hm
    obtain ⟨hpos, hmask, -⟩ := mask_of_ne_zero s hm
    have hlt : idx &&& ((NewCharacterSet s).chars.length - 1)
        < (NewCharacterSet s).chars.length := by
      have := Nat.and_le_right (n := idx)
        (m := (NewCharacterSet s).chars.length - 1)
      omega
    refine ⟨(NewCharacterSet s).chars[idx &&& ((NewCharacterSet s).chars.length - 1)],
      List.getElem?_eq_getElem hlt, ?_⟩
    have hAt : (NewCharacterSet s).At idx
        = some ((NewCharacterSet s).chars.get
            ⟨idx &&& ((NewCharacterSet s).chars.length - 1), hlt⟩) := by
      unfold CharacterSet.At
      rw [if_pos hm, hmask, List.getElem?_eq_getElem hlt]
      rfl
    unfold selectChar
    rw [if_pos hm, hAt]
    rfl
  · intro hm
    have hLpos : 0 < (NewCharacterSet s).chars.length := hL1
    refine ⟨⟨rfl, hdvd⟩, ?_, ?_, ?_, ?_, ?_⟩
    · intro hlt
      exact rejLoopGo_accept es (NewCharacterSet s).chars.length 10 idx pos hlt
    · intro k hge
      exact rejLoopGo_step es (NewCharacterSet s).chars.length idx pos k hge
    · intro v posN hrej
      have hvlt : v < maxValid (NewCharacterSet s).chars.length :=
        rejLoopGo_ok_lt es (NewCharacterSet s).chars.length 10 idx pos v posN hrej
      have hvL : v % (NewCharacterSet s).chars.length
          < (NewCharacterSet s).chars.length := Nat.mod_lt v hLpos
      refine ⟨hvlt, (NewCharacterSet s).chars[v % (NewCharacterSet s).chars.length],
        List.getElem?_eq_getElem hvL, ?_⟩
      have hAt : (NewCharacterSet s).At v
          = some ((NewCharacterSet s).chars.get
              ⟨v % (NewCharacterSet s).chars.length, hvL⟩) := by
        unfold CharacterSet.At
        rw [if_neg (by simp [hm]), if_neg (by omega), List.getElem?_eq_getElem hvL]
        rfl
      unfold selectChar
      rw [if_neg (by simp [hm]), if_neg (by omega)]
      show (match rejLoop es (NewCharacterSet s).chars.length idx pos with
        | (.ok v, posN) =>
          match (NewCharacterSet s).At v with
          | some c => ((Except.ok c : Except GenError Nat), posN)
          | none => (.error .panicked, posN)
        | (.error e, posN) => (.error e, posN)) = _
      rw [hrej]
      show (match (NewCharacterSet s).At v with
        | some c => ((Except.ok c : Except GenError Nat), posN)
        | none => (.error .panicked, posN)) = _
      rw [hAt]
      rfl
    · intro e posN hrej
      unfold selectChar
      rw [if_neg (by simp [hm]), if_neg (by omega)]
      show (match rejLoop es (NewCharacterSet s).chars.length idx pos with
        | (.ok v, posN) =>
          match (NewCharacterSet s).At v with
          | some c => ((Except.ok c : Except GenError Nat), posN)
          | none => (.error .panicked, posN)
        | (.error e, posN) => (.error e, posN)) = _
      rw [hrej]
    · intro j hj
      have hcount := card_filter_mod (NewCharacterSet s).chars.length j hLpos hj
        (maxValid (NewCharacterSet s).chars.length / (NewCharacterSet s).chars.length)
      rwa [Nat.mul_div_cancel' hdvd] at hcount

/-- C1 witness: the amended description evaluated on the 3-symbol
charset `"abc"` (a non-power-of-two length, hence the rejection path)
at an immediately accepted draw. -/
theorem C1_sampler_amended_witness :
    (NewCharacterSet [97, 98, 99]).mask = 0 ∧
    rejLoop (fun p => some p) (NewCharacterSet [97, 98, 99]).chars.length 5 0
      = (.ok 5, 0) ∧
    ∃ c, (NewCharacterSet [97, 98, 99]).chars[5 %
        (NewCharacterSet [97, 98, 99]).chars.length]? = some c ∧
      selectChar (fun p => some p) (NewCharacterSet [97, 98, 99]) 5 0 = (.ok c, 0) := by
  have h := C1_sampler_amended [97, 98, 99] (fun p => some p) 5 0 (by decide) (by decide)
  have hm : (NewCharacterSet [97, 98, 99]).mask = 0 := by decide
  have hacc : rejLoop (fun p => some p) (NewCharacterSet [97, 98, 99]).chars.length 5 0
      = (.ok 5, 0) := (h.2.2 hm).2.1 (by decide)
  exact ⟨hm, hacc, ((h.2.2 hm).2.2.2.1 5 0 hacc).2⟩

/-! ## C8 — zeroing of the index buffer -/

/-- C8 (code bug): the `defer` that zeroes the `indices` buffer is
registered only after the selection loops, so it covers only the success
exit.  On the success path the buffer is zeroed; on the entropy-failure,
cancellation and rejection-cap exits the buffer still holds raw drawn
values when the function returns. -/
theorem C8_buffer_not_zeroed_on_error :
    (generateSecureString (fun p => some p) none 2 (NewCharacterSet [97, 98, 99]) 0).buf
      = List.replicate 2 0 ∧
    generateSecureString (fun p => if p = 0 then some 5 else none) none 2
        (NewCharacterSet [97, 98, 99]) 0
      = ⟨.error .entropyFailure, [5, 0], 2⟩ ∧
    ¬ [5, 0] = List.replicate 2 (0 : Nat) ∧
    generateSecureString (fun p => some (p + 7)) (some 1) 2
        (NewCharacterSet [97, 98, 99]) 0
      = ⟨.error .cancelled, [7, 0], 1⟩ ∧
    ¬ [7, 0] = List.replicate 2 (0 : Nat) ∧
    generateSecureString (fun _ => some (2 ^ 64 - 1)) none 2
        (NewCharacterSet [97, 98, 99]) 0
      = ⟨.error .excessiveRejection, [2 ^ 64 - 1, 2 ^ 64 - 1], 12⟩ ∧
    ¬ [2 ^ 64 - 1, 2 ^ 64 - 1] = List.replicate 2 (0 : Nat) := by
  decide

/-! ## C6 — batch contract -/

theorem batchPos_shift (es : ES) (cancelAt : Option Nat) (numCPU : Int)
    (gc : GeneratorConfig) (pos : Nat) :
    ∀ i, batchPos es cancelAt numCPU gc pos (i + 1)
      = batchPos es cancelAt numCPU gc (Generate es cancelAt numCPU gc pos).2 i := by
  intro i
  induction i with
  | zero => rfl
  | succ i ih =>
    show (Generate es cancelAt numCPU gc (batchPos es cancelAt numCPU gc pos (i + 1))).2
      = _
    rw [ih]
    rfl

theorem batchLoop_ok (es : ES) (cancelAt : Option Nat) (numCPU : Int)
    (gc : GeneratorConfig) :
    ∀ rem pos rs posF,
      batchLoop es cancelAt numCPU gc rem pos = (rs, none, posF) →
      rs.length = rem ∧
      ∀ i, i < rem →
        ∃ out, Generate es cancelAt numCPU gc (batchPos es cancelAt numCPU gc pos i)
            = (.ok out, batchPos es cancelAt numCPU gc pos (i + 1)) ∧
          rs[i]? = some out := by
  intro rem
  induction rem with
  | zero =>
    intro pos rs posF h
    unfold batchLoop at h
    simp only [Prod.mk.injEq] at h
    obtain ⟨h1, -, -⟩ := h
    subst h1
    exact ⟨rfl, fun i hi => absurd hi (by omega)⟩
  | succ rem ih =>
    intro pos rs posF h
    unfold batchLoop at h
    cases hgen : Generate es cancelAt numCPU gc pos with
    | mk rg posN =>
      rw [hgen] at h
      cases rg with
      | error e => simp at h
      | ok out =>
        replace h : (match batchLoop es cancelAt numCPU gc rem posN with
            | (rest, none, posF') => (out :: rest, none, posF')
            | (_, some e, posF') => ([], some e, posF')) = (rs, none, posF) := h
        cases hbl : batchLoop es cancelAt numCPU gc rem posN with
        | mk rest p2 =>
          obtain ⟨errOpt, posF'⟩ := p2
          rw [hbl] at h
          cases errOpt with
          | some e => simp at h
          | none =>
            simp only [Prod.mk.injEq] at h
            obtain ⟨h1, -, -⟩ := h
            subst h1
            obtain ⟨hlen, hall⟩ := ih posN rest posF' hbl
            have hpos2 : (Generate es cancelAt numCPU gc pos).2 = posN := by
              rw [hgen]
            refine ⟨by simp [hlen], ?_⟩
            intro i hi
            cases i with
            | zero =>
              refine ⟨out, ?_, by simp⟩
              show Generate es cancelAt numCPU gc pos
                = (.ok out, (Generate es cancelAt numCPU gc pos).2)
              rw [hgen]
            | succ i =>
              obtain ⟨out', hgen', hidx⟩ := hall i (by omega)
              refine ⟨out', ?_, by simpa using hidx⟩
              rw [batchPos_shift es cancelAt numCPU gc pos i, hpos2,
                  batchPos_shift es cancelAt numCPU gc pos (i + 1), hpos2]
              exact hgen'

theorem batchLoop_err (es : ES) (cancelAt : Option Nat) (numCPU : Int)
    (gc : GeneratorConfig) :
    ∀ rem pos rs e posF,
      batchLoop es cancelAt numCPU gc rem pos = (rs, some e, posF) →
      rs = [] ∧
      ∃ i, i < rem ∧
        (∀ j, j < i →
          ∃ out, Generate es cancelAt numCPU gc (batchPos es cancelAt numCPU gc pos j)
            = (.ok out, batchPos es cancelAt numCPU gc pos (j + 1))) ∧
        ∃ posE, Generate es cancelAt numCPU gc (batchPos es cancelAt numCPU gc pos i)
          = (.error e, posE) := by
  intro rem
  induction rem with
  | zero =>
    intro pos rs e posF h
    unfold batchLoop at h
    simp at h
  | succ rem ih =>
    intro pos rs e posF h
    unfold batchLoop at h
    cases hgen : Generate es cancelAt numCPU gc pos with
    | mk rg posN =>
      rw [hgen] at h
      cases rg with
      | error e' =>
        simp only [Prod.mk.injEq, Option.some.injEq] at h
        obtain ⟨h1, h2, -⟩ := h
        subst h1
        subst h2
        exact ⟨rfl, 0, by omega, fun j hj => absurd hj (by omega), posN, hgen⟩
      | ok out =>
        replace h : (match batchLoop es cancelAt numCPU gc rem posN with
            | (rest, none, posF') => (out :: rest, none, posF')
            | (_, some e, posF') => ([], some e, posF')) = (rs, some e, posF) := h
        cases hbl : batchLoop es cancelAt numCPU gc rem posN with
        | mk rest p2 =>
          obtain ⟨errOpt, posF'⟩ := p2
          rw [hbl] at h
          cases errOpt with
          | none => simp at h
          | some e' =>
            simp only [Prod.mk.injEq, Option.some.injEq] at h
            obtain ⟨h1, h2, -⟩ := h
            subst h1
            subst h2
            obtain ⟨-, i, hi, hprev, posE, herr⟩ := ih posN rest _ posF' hbl
            have hpos2 : (Generate es cancelAt numCPU gc pos).2 = posN := by
              rw [hgen]
            refine ⟨rfl, i + 1, by omega, ?_, posE, ?_⟩
            · intro j hj
              cases j with
              | zero =>
                refine ⟨out, ?_⟩
                show Generate es cancelAt numCPU gc pos
                  = (.ok out, (Generate es cancelAt numCPU gc pos).2)
                rw [hgen]
              | succ j =>
                obtain ⟨out', hgen'⟩ := hprev j (by omega)
                refine ⟨out', ?_⟩
                rw [batchPos_shift es cancelAt numCPU gc pos j, hpos2,
                    batchPos_shift es cancelAt numCPU gc pos (j + 1), hpos2]
                exact hgen'
            · rw [batchPos_shift es cancelAt numCPU gc pos i, hpos2]
              exact herr

/-- C6: `GenerateBatch` either succeeds with exactly `Count` strings in
input order (`results[i]` being the i-th generation along the entropy
stream) or fails with the first error encountered and an empty result
(no partial results).  The parallel branch of the source writes
`results[i]` from independent generations and likewise discards them on
error; it is embedded by the same in-order interleaving. -/
theorem C6_batch_contract (es : ES) (cancelAt : Option Nat) (numCPU : Int)
    (gc : GeneratorConfig) (pos : Nat) :
    ((GenerateBatch es cancelAt numCPU gc pos).2.1 = none →
      (GenerateBatch es cancelAt numCPU gc pos).1.length = gc.count.toNat ∧
      ∀ i, i < gc.count.toNat →
        ∃ out, Generate es cancelAt numCPU (Validate numCPU gc).2
            (batchPos es cancelAt numCPU (Validate numCPU gc).2 pos i)
          = (.ok out, batchPos es cancelAt numCPU (Validate numCPU gc).2 pos (i + 1)) ∧
        (GenerateBatch es cancelAt numCPU gc pos).1[i]? = some out) ∧
    (∀ e, (GenerateBatch es cancelAt numCPU gc pos).2.1 = some e →
      (GenerateBatch es cancelAt numCPU gc pos).1 = []) ∧
    (∀ e, (GenerateBatch es cancelAt numCPU gc pos).2.1 = some e →
      ((Validate numCPU gc).1 ≠ [] ∧ e = .invalidConfig (Validate numCPU gc).1) ∨
      ∃ i, i < gc.count.toNat ∧
        (∀ j, j < i →
          ∃ out, Generate es cancelAt numCPU (Validate numCPU gc).2
              (batchPos es cancelAt numCPU (Validate numCPU gc).2 pos j)
            = (.ok out, batchPos es cancelAt numCPU (Validate numCPU gc).2 pos (j + 1))) ∧
        ∃ posE, Generate es cancelAt numCPU (Validate numCPU gc).2
            (batchPos es cancelAt numCPU (Validate numCPU gc).2 pos i)
          = (.error e, posE)) := by
  by_cases hv : (Validate numCPU gc).1 ≠ []
  · have hb : GenerateBatch es cancelAt numCPU gc pos
        = ([], some (.invalidConfig (Validate numCPU gc).1), pos) := by
      simp only [GenerateBatch]
      rw [if_pos hv]
    rw [hb]
    refine ⟨fun hcontra => absurd hcontra (by simp), fun e _ => rfl, fun e he => ?_⟩
    simp only [Option.some.injEq] at he
    exact Or.inl ⟨hv, he.symm⟩
  · have hb : GenerateBatch es cancelAt numCPU gc pos
        = batchLoop es cancelAt numCPU (Validate numCPU gc).2
            (Validate numCPU gc).2.count.toNat pos := by
      simp only [GenerateBatch]
      rw [if_neg hv]
    rw [hb]
    cases hbl : batchLoop es cancelAt numCPU (Validate numCPU gc).2
        (Validate numCPU gc).2.count.toNat pos with
    | mk rs p2 =>
      obtain ⟨errOpt, posF⟩ := p2
      cases errOpt with
      | none =>
        obtain ⟨hlen, hall⟩ :=
          batchLoop_ok es cancelAt numCPU (Validate numCPU gc).2 _ pos rs posF hbl
        exact ⟨fun _ => ⟨hlen, hall⟩, fun e hcontra => by simp at hcontra,
          fun e hcontra => by simp at hcontra⟩
      | some e' =>
        obtain ⟨hnil, hfirst⟩ :=
          batchLoop_err es cancelAt numCPU (Validate numCPU gc).2 _ pos rs e' posF hbl
        refine ⟨fun hcontra => by simp at hcontra, fun e _ => hnil, fun e he => ?_⟩
        simp only [Option.some.injEq] at he
        subst he
        exact Or.inr hfirst

/-- C6 witness: a 2-string compact batch over the identity stream
succeeds with exactly two in-order results. -/
theorem C6_batch_contract_witness :
    (GenerateBatch (fun p => some p) none 1
        ⟨2, 3, 2, some (NewCharacterSet [97, 98, 99]), false, 1, 1000, true, true⟩ 0).1.length
      = ((2 : Int)).toNat ∧
    ∀ i, i < ((2 : Int)).toNat →
      ∃ out, Generate (fun p => some p) none 1
          (Validate 1 ⟨2, 3, 2, some (NewCharacterSet [97, 98, 99]), false, 1, 1000, true, true⟩).2
          (batchPos (fun p => some p) none 1
            (Validate 1 ⟨2, 3, 2, some (NewCharacterSet [97, 98, 99]), false, 1, 1000, true, true⟩).2
            0 i)
        = (.ok out, batchPos (fun p => some p) none 1
            (Validate 1 ⟨2, 3, 2, some (NewCharacterSet [97, 98, 99]), false, 1, 1000, true, true⟩).2
            0 (i + 1)) ∧
      (GenerateBatch (fun p => some p) none 1
          ⟨2, 3, 2, some (NewCharacterSet [97, 98, 99]), false, 1, 1000, true, true⟩ 0).1[i]?
        = some out :=
  (C6_batch_contract (fun p => some p) none 1
    ⟨2, 3, 2, some (NewCharacterSet [97, 98, 99]), false, 1, 1000, true, true⟩ 0).1
    (by decide)

end Genpass
